import Mathlib

/-!
Verification of the ai-attire context-resolution and recommendation pipeline.

This file embeds, as executable Lean definitions, the deterministic core of
the repository: the keyword-based occasion parser (`src/services/context.ts`,
class `ContextParser`), the greedy JSON extraction and response assembly of
the recommender engine (`RecommenderEngine`), and the response validator.
External network calls (the LLM text/vision calls, the weather lookup) are
modelled as explicit parameters of type `Except Unit _`: an `error` value
stands for a thrown exception in the collaborator, an `ok` value for the
text or data it returned.

Modelling conventions, fixed once here:
* JavaScript strings are Lean `String`s (lists of characters); the handful
  of string operations the source uses (`toLowerCase`, `includes`, `trim`,
  `split`, `charAt(0).toUpperCase() + slice(1)`) are defined below on
  `List Char`, restricted to the ASCII behaviour the source relies on.
* JSON numbers are kept as their source lexeme (`Json.num "1"`): no claim
  depends on floating-point arithmetic, only on syntactic shape.
* Fields declared `string` in the TypeScript interfaces are modelled as
  `String`; a JSON value of a different runtime type in such a field is
  represented by the default the source would fall back to.  The
  `recommendations` array, whose entries the source re-checks with
  `typeof rec === "string"`, is modelled as `List Json` so that non-string
  entries are representable.
-/

/-- JavaScript whitespace as used by `String.prototype.trim` (ASCII part). -/
def jsWs (c : Char) : Bool :=
  c == ' ' || c == '\t' || c == '\n' || c == '\r' || c == '\x0b' || c == '\x0c'

/-- `trim` on a character list: drop whitespace at both ends. -/
def trimChars (l : List Char) : List Char :=
  ((l.dropWhile jsWs).reverse.dropWhile jsWs).reverse

/-- Model of JavaScript `s.trim()`. -/
def jsTrim (s : String) : String :=
  ⟨trimChars s.data⟩

/-- Does `hay` start with `needle`? -/
def leadsWith : List Char → List Char → Bool
  | [], _ => true
  | _ :: _, [] => false
  | c :: cs, d :: ds => c == d && leadsWith cs ds

/-- Does `needle` occur as a contiguous substring of `hay`? -/
def occursIn (needle hay : List Char) : Bool :=
  match hay with
  | [] => needle.isEmpty
  | _ :: ds => leadsWith needle hay || occursIn needle ds

/-- Model of JavaScript `s.includes(sub)`. -/
def jsIncludes (s sub : String) : Bool :=
  occursIn sub.data s.data

/-- ASCII lower-casing of one character, as `toLowerCase` acts on ASCII. -/
def lowChar (c : Char) : Char :=
  if 'A' ≤ c ∧ c ≤ 'Z' then Char.ofNat (c.toNat + 32) else c

/-- Model of JavaScript `s.toLowerCase()` (ASCII fragment). -/
def jsToLower (s : String) : String :=
  ⟨s.data.map lowChar⟩

/-- ASCII upper-casing of one character, as `toUpperCase` acts on ASCII. -/
def upChar (c : Char) : Char :=
  if 'a' ≤ c ∧ c ≤ 'z' then Char.ofNat (c.toNat - 32) else c

/-- Model of JavaScript `s.split(sep)` for a one-character separator. -/
def splitChar (sep : Char) : List Char → List (List Char)
  | [] => [[]]
  | c :: cs =>
    if c == sep then [] :: splitChar sep cs
    else
      match splitChar sep cs with
      | [] => [[c]]
      | w :: ws => (c :: w) :: ws

/-- Model of JavaScript `parts.join(" ")`. -/
def joinSpace : List (List Char) → List Char
  | [] => []
  | [w] => w
  | w :: ws => w ++ ' ' :: joinSpace ws

/-- `word.charAt(0).toUpperCase() + word.slice(1)` from `extractLocation`. -/
def capWord : List Char → List Char
  | [] => []
  | c :: cs => upChar c :: cs

/-- Title-casing used by `ContextParser.extractLocation`:
`loc.split(" ").map(capitalize).join(" ")`. -/
def titleCase (loc : String) : String :=
  ⟨joinSpace ((splitChar ' ' loc.data).map capWord)⟩

/-- The structured context produced by `ContextParser`
(interface `OccasionContext` in `src/types.ts`). -/
structure OccasionContext where
  occasion : String
  location : Option String
  formality : String
  tone : List String
  weatherConsideration : Option String
  culturalNotes : Option String
  preferences : List String
  rawInput : String
deriving DecidableEq, Repr

/-- The four admissible formality values
(`validFormalities` in `ContextParser.validateFormality`). -/
def validFormalities : List String :=
  ["casual", "business-casual", "formal", "athletic"]

/-- The ordered keyword groups of `ContextParser.extractOccasion`. -/
def occasionGroups : List (List String × String) :=
  [ (["job interview", "interview"], "interview")
  , (["wedding", "marriage", "ceremony"], "wedding")
  , (["workout", "gym", "exercise", "running", "yoga", "fitness"], "workout")
  , (["funeral", "memorial"], "funeral")
  , (["gala", "ball"], "gala")
  , (["formal event", "formal"], "formal event")
  , (["business", "meeting", "conference", "office", "work"], "business")
  , (["party", "celebration", "birthday"], "party")
  , (["date", "dinner date", "romantic"], "date")
  , (["brunch", "lunch"], "casual dining")
  , (["beach", "pool"], "beach")
  , (["hiking", "outdoor"], "outdoor activity")
  , (["casual"], "casual") ]

/-- First keyword group whose keyword occurs in the text wins
(the nested loops of `extractOccasion` and `extractWeather`). -/
def firstMatch (groups : List (List String × String)) (text : String) : Option String :=
  match groups with
  | [] => none
  | (keywords, value) :: rest =>
    if keywords.any (fun k => jsIncludes text k) then some value
    else firstMatch rest text

/-- `ContextParser.extractOccasion`. -/
def extractOccasion (text : String) : String :=
  (firstMatch occasionGroups text).getD "general"

/-- The location gazetteer of `ContextParser.extractLocation`,
in source order (note `singapore` is listed twice in the source). -/
def locationsList : List String :=
  [ "japan", "thailand", "china", "korea", "singapore"
  , "india", "vietnam", "malaysia", "indonesia", "philippines"
  , "france", "germany", "italy", "spain", "uk", "england"
  , "united states", "usa", "canada", "mexico", "brazil"
  , "australia", "new zealand"
  , "dubai", "egypt", "south africa"
  , "new york", "los angeles", "san francisco", "chicago", "boston"
  , "london", "paris", "rome", "barcelona", "berlin"
  , "tokyo", "kyoto", "osaka", "beijing", "shanghai"
  , "bangkok", "singapore", "hong kong", "seoul"
  , "sydney", "melbourne" ]

/-- `ContextParser.extractLocation`: first gazetteer entry that occurs
as a substring, title-cased. -/
def extractLocation (text : String) : Option String :=
  match locationsList.find? (fun loc => jsIncludes text loc) with
  | some loc => some (titleCase loc)
  | none => none

/-- The formality lookup table of `ContextParser.determineFormality`. -/
def formalityPairs : List (String × String) :=
  [ ("wedding", "formal")
  , ("funeral", "formal")
  , ("gala", "formal")
  , ("formal event", "formal")
  , ("interview", "formal")
  , ("business", "business-casual")
  , ("casual dining", "business-casual")
  , ("date", "business-casual")
  , ("workout", "athletic")
  , ("beach", "casual")
  , ("party", "casual")
  , ("casual", "casual")
  , ("general", "casual") ]

/-- `ContextParser.determineFormality`: table lookup, default `"casual"`. -/
def determineFormality (occ : String) : String :=
  ((formalityPairs.find? (fun p => p.1 == occ)).map (fun p => p.2)).getD "casual"

/-- The tone vocabulary of `ContextParser.extractTone`. -/
def tonesList : List String :=
  [ "elegant", "comfortable", "breathable", "professional"
  , "casual", "sporty", "trendy", "conservative", "bold"
  , "minimalist", "modern", "classic", "traditional"
  , "sophisticated", "relaxed", "chic", "stylish"
  , "edgy", "vintage", "bohemian", "preppy" ]

/-- `ContextParser.extractTone`. -/
def extractTone (text : String) : List String :=
  tonesList.filter (fun tone => jsIncludes text tone)

/-- The ordered weather keyword groups of `ContextParser.extractWeather`. -/
def weatherGroups : List (List String × String) :=
  [ (["humid", "humidity"], "humid")
  , (["snowy", "snow"], "snowy")
  , (["rainy", "rain", "wet", "monsoon"], "rainy")
  , (["cold", "winter", "freezing", "chilly"], "cold")
  , (["hot", "warm", "summer", "heat", "tropical"], "hot")
  , (["dry", "arid"], "dry")
  , (["windy"], "windy") ]

/-- `ContextParser.extractWeather`. -/
def extractWeather (text : String) : Option String :=
  firstMatch weatherGroups text

/-- The fixed religious-site note of `ContextParser.extractCulturalNotes`. -/
def religiousNote : String :=
  "Religious site - modest, respectful attire required"

/-- The location-keyed cultural-note table of `extractCulturalNotes`. -/
def culturalPairs : List (String × String) :=
  [ ("Japan", "Consider modest dress codes; remove shoes indoors")
  , ("Thailand", "Dress modestly, especially in temples; avoid pointing feet")
  , ("India", "Modest clothing recommended; consider cultural sensitivity")
  , ("Dubai", "Conservative dress expected; cover shoulders and knees")
  , ("Saudi Arabia", "Very conservative dress codes; women should cover")
  , ("Vatican", "Modest dress required; cover shoulders and knees")
  , ("Singapore", "Smart casual widely accepted; hot and humid climate") ]

/-- `ContextParser.extractCulturalNotes`. -/
def extractCulturalNotes (location : Option String) (text : String) : Option String :=
  if jsIncludes text "temple" || jsIncludes text "mosque" || jsIncludes text "church" then
    some religiousNote
  else
    match location with
    | none => none
    | some loc => (culturalPairs.find? (fun p => p.1 == loc)).map (fun p => p.2)

/-- The preference vocabulary of `ContextParser.extractPreferences`. -/
def prefsList : List String :=
  [ "breathable", "lightweight", "warm", "layered"
  , "elegant", "comfortable", "professional"
  , "minimalist", "bold", "colorful", "neutral"
  , "fitted", "loose", "stretchy", "structured"
  , "sustainable", "eco-friendly", "vintage"
  , "luxury", "budget-friendly", "designer" ]

/-- `ContextParser.extractPreferences`: vocabulary filter, then the
desire-verb filter that the source applies to `"casual"`/`"formal"`. -/
def extractPreferences (text : String) : List String :=
  let extracted := prefsList.filter (fun pref => jsIncludes text pref)
  extracted.filter (fun pref =>
    if pref == "casual" || pref == "formal" then
      jsIncludes text ("prefer " ++ pref)
      || jsIncludes text ("want " ++ pref)
      || jsIncludes text ("need " ++ pref)
    else true)

/-- `ContextParser.parseOccasionKeywordBased`: the deterministic
fallback path. -/
def parseOccasionKeywordBased (input : String) : OccasionContext :=
  let lowerInput := jsToLower input
  let occ := extractOccasion lowerInput
  { occasion := occ
  , location := extractLocation lowerInput
  , formality := determineFormality occ
  , tone := extractTone lowerInput
  , weatherConsideration := extractWeather lowerInput
  , culturalNotes := extractCulturalNotes (extractLocation lowerInput) lowerInput
  , preferences := extractPreferences lowerInput
  , rawInput := input }

/-! ## JSON values and `JSON.parse`

The source extracts a JSON span with the regex `/\x7b[\s\S]*\x7d/` (greedy:
from the first opening brace to the last closing brace) and feeds it to the
platform `JSON.parse`.  `Json` below is the parse result; `parseJsonText`
is a standard strict JSON parser standing in for the platform one.  Number
literals are kept as their lexeme. -/

inductive Json where
  | null : Json
  | bool (b : Bool) : Json
  | num (lexeme : String) : Json
  | str (s : String) : Json
  | arr (elems : List Json) : Json
  | obj (fields : List (String × Json)) : Json
deriving Repr

/-- The greedy regex match `response.match(/\x7b[\s\S]*\x7d/)`: the span
from the first opening brace to the last closing brace, when the latter
comes after the former. -/
def jsonSpan (cs : List Char) : Option (List Char) :=
  match cs.dropWhile (fun c => !(c == '\x7b')) with
  | [] => none
  | c :: rest =>
    if rest.contains '\x7d' then
      some (c :: (rest.reverse.dropWhile (fun c => !(c == '\x7d'))).reverse)
    else none

/-- JSON insignificant whitespace. -/
def jsonWs (c : Char) : Bool :=
  c == ' ' || c == '\t' || c == '\n' || c == '\r'

def skipWs (cs : List Char) : List Char :=
  cs.dropWhile jsonWs

/-- Value of a hexadecimal digit, written over code points. -/
def hexVal (c : Char) : Option Nat :=
  let n := c.toNat
  if 48 ≤ n ∧ n ≤ 57 then some (n - 48)
  else if 97 ≤ n ∧ n ≤ 102 then some (n - 87)
  else if 65 ≤ n ∧ n ≤ 70 then some (n - 55)
  else none

/-- The table of single-character JSON string escapes. -/
def escPairs : List (Char × Char) :=
  [ ('\"', '\"'), ('\\', '\\'), ('/', '/'), ('b', '\x08')
  , ('f', '\x0c'), ('n', '\n'), ('r', '\x0d'), ('t', '\t') ]

/-- Decode a single-character JSON string escape. -/
def escChar (c : Char) : Option Char :=
  (escPairs.find? (fun p => p.1 == c)).map (fun p => p.2)

/-- Body of a JSON string literal, after the opening quote; returns the
decoded characters and the remainder after the closing quote.  (A code
point from `\u` escapes outside the valid `Char` range is represented by
`Char.ofNat`, which maps it to a default character; no claim depends on
surrogate handling.) -/
def strBody : List Char → Option (List Char × List Char)
  | [] => none
  | c :: cs =>
    if c == '\"' then some ([], cs)
    else if c == '\\' then
      match cs with
      | [] => none
      | e :: cs' =>
        if e == 'u' then
          match cs' with
          | h1 :: h2 :: h3 :: h4 :: tail =>
            match hexVal h1, hexVal h2, hexVal h3, hexVal h4 with
            | some a, some b, some x, some d =>
              (strBody tail).map (fun r =>
                (Char.ofNat (((a * 16 + b) * 16 + x) * 16 + d) :: r.1, r.2))
            | _, _, _, _ => none
          | _ => none
        else
          match escChar e with
          | none => none
          | some d => (strBody cs').map (fun r => (d :: r.1, r.2))
    else if c.toNat < 32 then none
    else (strBody cs).map (fun r => (c :: r.1, r.2))

/-- JSON number literal: returns the lexeme and the remainder. -/
def numLex (cs : List Char) : Option (List Char × List Char) :=
  let (sign, cs1) :=
    match cs with
    | '-' :: t => (['-'], t)
    | _ => (([] : List Char), cs)
  match cs1 with
  | [] => none
  | c :: t =>
    if c == '0' then some (sign ++ ['0'], t)
    else if c.isDigit then
      some (sign ++ c :: t.takeWhile Char.isDigit, t.dropWhile Char.isDigit)
    else none

/-- Optional fraction part. -/
def fracLex (cs : List Char) : Option (List Char × List Char) :=
  match cs with
  | '.' :: t =>
    match t.takeWhile Char.isDigit with
    | [] => none
    | ds => some ('.' :: ds, t.dropWhile Char.isDigit)
  | _ => some ([], cs)

/-- Optional exponent part. -/
def expLex (cs : List Char) : Option (List Char × List Char) :=
  match cs with
  | e :: t =>
    if e == 'e' || e == 'E' then
      let (sign, t1) :=
        match t with
        | '+' :: t' => (['+'], t')
        | '-' :: t' => (['-'], t')
        | _ => (([] : List Char), t)
      match t1.takeWhile Char.isDigit with
      | [] => none
      | ds => some (e :: sign ++ ds, t1.dropWhile Char.isDigit)
    else some ([], e :: t)
  | [] => some ([], [])

/-- Full JSON number; returns `Json.num` with the lexeme. -/
def parseNum (cs : List Char) : Option (Json × List Char) :=
  match numLex cs with
  | none => none
  | some (intPart, r1) =>
    match fracLex r1 with
    | none => none
    | some (fracPart, r2) =>
      match expLex r2 with
      | none => none
      | some (expPart, r3) =>
        some (.num ⟨intPart ++ fracPart ++ expPart⟩, r3)

mutual

/-- Recursive-descent JSON value parser (fuel-indexed; the fuel strictly
exceeds the input length, so it never runs out on the inputs used). -/
def parseValue : Nat → List Char → Option (Json × List Char)
  | 0, _ => none
  | Nat.succ fuel, cs =>
    match skipWs cs with
    | [] => none
    | c :: rest =>
      if c == '\x7b' then
        match skipWs rest with
        | '\x7d' :: rest' => some (.obj [], rest')
        | cs' => parseMembers fuel cs' []
      else if c == '[' then
        match skipWs rest with
        | ']' :: rest' => some (.arr [], rest')
        | cs' => parseElems fuel cs' []
      else if c == '\"' then
        (strBody rest).map (fun r => (.str ⟨r.1⟩, r.2))
      else if c == 't' then
        match rest with
        | 'r' :: 'u' :: 'e' :: r => some (.bool true, r)
        | _ => none
      else if c == 'f' then
        match rest with
        | 'a' :: 'l' :: 's' :: 'e' :: r => some (.bool false, r)
        | _ => none
      else if c == 'n' then
        match rest with
        | 'u' :: 'l' :: 'l' :: r => some (.null, r)
        | _ => none
      else parseNum (c :: rest)

/-- Members of a JSON object after the opening brace (nonempty case). -/
def parseMembers : Nat → List Char → List (String × Json) → Option (Json × List Char)
  | 0, _, _ => none
  | Nat.succ fuel, cs, acc =>
    match skipWs cs with
    | '\"' :: rest =>
      match strBody rest with
      | none => none
      | some (key, r1) =>
        match skipWs r1 with
        | ':' :: r2 =>
          match parseValue fuel r2 with
          | none => none
          | some (v, r3) =>
            match skipWs r3 with
            | ',' :: r4 => parseMembers fuel r4 (acc ++ [(⟨key⟩, v)])
            | '\x7d' :: r4 => some (.obj (acc ++ [(⟨key⟩, v)]), r4)
            | _ => none
        | _ => none
    | _ => none

/-- Elements of a JSON array after the opening bracket (nonempty case). -/
def parseElems : Nat → List Char → List Json → Option (Json × List Char)
  | 0, _, _ => none
  | Nat.succ fuel, cs, acc =>
    match parseValue fuel cs with
    | none => none
    | some (v, r1) =>
      match skipWs r1 with
      | ',' :: r2 => parseElems fuel r2 (acc ++ [v])
      | ']' :: r2 => some (.arr (acc ++ [v]), r2)
      | _ => none

end

/-- `JSON.parse`: one value, optionally surrounded by whitespace. -/
def parseJsonText (cs : List Char) : Option Json :=
  match parseValue (cs.length + 1) cs with
  | some (j, rest) => if (skipWs rest).isEmpty then some j else none
  | none => none

/-! ## Dynamic field access and JavaScript truthiness -/

/-- Last-wins association lookup (objects from `JSON.parse` keep the last
duplicate key). -/
def lookupLast (fields : List (String × Json)) (k : String) : Option Json :=
  match fields with
  | [] => none
  | (k', v) :: rest =>
    match lookupLast rest k with
    | some v' => some v'
    | none => if k' == k then some v else none

/-- JavaScript property access `j.k`; `none` models `undefined`. -/
def getField (j : Json) (k : String) : Option Json :=
  match j with
  | .obj fields => lookupLast fields k
  | _ => none

/-- Is the mantissa of a number lexeme all zeroes (the numeric value 0)? -/
def numLexIsZero (l : String) : Bool :=
  (l.data.takeWhile (fun c => !(c == 'e' || c == 'E'))).all
    (fun c => !c.isDigit || c == '0')

/-- JavaScript truthiness of a possibly-absent JSON value. -/
def truthy (x : Option Json) : Bool :=
  match x with
  | none => false
  | some .null => false
  | some (.bool b) => b
  | some (.num l) => !numLexIsZero l
  | some (.str s) => !s.data.isEmpty
  | some (.arr _) => true
  | some (.obj _) => true

/-- `x || d` where the result is used as a string (fields typed `string`
in the TypeScript interfaces). -/
def jsOrString (x : Option Json) (d : String) : String :=
  if truthy x then
    match x with
    | some (.str s) => s
    | _ => d
  else d

/-- `x || undefined` where the result is used as an optional string. -/
def jsOrStringOpt (x : Option Json) : Option String :=
  if truthy x then
    match x with
    | some (.str s) => some s
    | _ => none
  else none

/-- `x || undefined` keeping the JSON value. -/
def jsOrJsonOpt (x : Option Json) : Option Json :=
  if truthy x then x else none

/-- `Array.isArray(x) ? x : []`, keeping only string entries
(these fields are typed `string[]`). -/
def strArrayOrEmpty (x : Option Json) : List String :=
  match x with
  | some (.arr xs) => xs.filterMap (fun j => match j with | .str s => some s | _ => none)
  | _ => []

/-! ## `ContextParser`: AI path and entry point -/

/-- `ContextParser.validateFormality` applied to the dynamic field
`parsed.formality`: the `includes` test only succeeds on one of the four
strings, everything else (other strings, other types, `undefined`) falls
back to `"casual"`. -/
def validateFormalityJ (x : Option Json) : String :=
  match x with
  | some (.str s) => if validFormalities.contains s then s else "casual"
  | _ => "casual"

/-- Construction of the `OccasionContext` from the parsed AI response
(`ContextParser.parseOccasionWithAI`, lines 98-107). -/
def assembleAIContext (input : String) (parsed : Json) : OccasionContext :=
  { occasion := jsOrString (getField parsed "occasion") "general"
  , location := jsOrStringOpt (getField parsed "location")
  , formality := validateFormalityJ (getField parsed "formality")
  , tone := strArrayOrEmpty (getField parsed "tone")
  , weatherConsideration := jsOrStringOpt (getField parsed "weatherConsideration")
  , culturalNotes := jsOrStringOpt (getField parsed "culturalNotes")
  , preferences := strArrayOrEmpty (getField parsed "preferences")
  , rawInput := input }

/-- `ContextParser.parseOccasionWithAI`.  `aiResponse` models the
`claudeService.callClaude` call: `error` is a thrown transport error,
`ok` the raw response text.  The result is `error` whenever the source
method would throw. -/
def parseOccasionWithAI (input : String) (aiResponse : Except Unit String) :
    Except String OccasionContext :=
  match aiResponse with
  | .error _ => .error "Claude call failed"
  | .ok response =>
    match jsonSpan response.data with
    | none => .error "Failed to parse Claude JSON response: No JSON found in Claude response"
    | some span =>
      match parseJsonText span with
      | none => .error "Failed to parse Claude JSON response: SyntaxError"
      | some parsed => .ok (assembleAIContext input parsed)

/-- `ContextParser.parseOccasion`: try the AI path when enabled, fall back
to the keyword path on any failure.  `useAI` models `this.useAI &&
this.claudeService`. -/
def parseOccasion (useAI : Bool) (aiResponse : Except Unit String) (input : String) :
    OccasionContext :=
  if useAI then
    match parseOccasionWithAI input aiResponse with
    | .ok ctx => ctx
    | .error _ => parseOccasionKeywordBased input
  else parseOccasionKeywordBased input

/-! ## `RecommenderEngine` -/

/-- Current-conditions block of `WeatherData` (`src/types.ts`); numeric
fields are modelled as integers, no claim depends on their arithmetic. -/
structure WeatherCurrent where
  temperature : Int
  temperatureFahrenheit : Int
  weatherCode : Int
  weatherDescription : String
  windSpeed : Int
  humidity : Int
  precipitation : Int
deriving DecidableEq, Repr

/-- `WeatherData` as produced by the weather service. -/
structure WeatherData where
  location : String
  latitude : Int
  longitude : Int
  current : WeatherCurrent
  summary : String
deriving DecidableEq, Repr

/-- `RecommendationResponse` (`src/types.ts`), with the optional weather
fields the weather-aware flow assigns.  `recommendations` entries are kept
as JSON values because `validateResponse` re-checks their runtime type. -/
structure RecommendationResponse where
  clothingAnalysis : Option Json := none
  occasionContext : Option Json := none
  occasion : String
  location : Option String := none
  summary : String
  recommendations : List Json
  culturalTips : Option (List Json) := none
  dontWear : Option (List Json) := none
  shoppingTips : Option (List Json) := none
  weatherData : Option WeatherData := none
  weatherConsidered : Option Bool := none
deriving Repr

/-- Field-by-field response assembly of
`RecommenderEngine.parseSingleCallResponse` (lines 365-384). -/
def assembleRecommendation (parsed : Json) : RecommendationResponse :=
  { clothingAnalysis := jsOrJsonOpt (getField parsed "clothingAnalysis")
  , occasionContext := jsOrJsonOpt (getField parsed "occasionContext")
  , occasion := jsOrString (getField parsed "occasion") "Unknown"
  , location := jsOrStringOpt (getField parsed "location")
  , summary := jsOrString (getField parsed "summary") ""
  , recommendations :=
      match getField parsed "recommendations" with
      | some (.arr xs) => xs
      | _ => []
  , culturalTips :=
      match getField parsed "culturalTips" with
      | some (.arr xs) => some xs
      | _ => none
  , dontWear :=
      match getField parsed "dontWear" with
      | some (.arr xs) => some xs
      | _ => none
  , shoppingTips :=
      match getField parsed "shoppingTips" with
      | some (.arr xs) => some xs
      | _ => none
  , weatherData := none
  , weatherConsidered := none }

/-- `RecommenderEngine.parseSingleCallResponse`: greedy JSON span
extraction, `JSON.parse`, then field mapping with defaults. -/
def parseSingleCallResponse (response : String) : Except String RecommendationResponse :=
  match jsonSpan response.data with
  | none => .error "Failed to parse comprehensive response: No JSON object found in response"
  | some span =>
    match parseJsonText span with
    | none => .error "Failed to parse comprehensive response: SyntaxError"
    | some parsed => .ok (assembleRecommendation parsed)

/-- The shared ResponseExtractor step: locate the greedy brace span and
parse it (`response.match(/.../)` followed by `JSON.parse`). -/
def extractJson (response : String) : Except String Json :=
  match jsonSpan response.data with
  | none => .error "No JSON object found in response"
  | some span =>
    match parseJsonText span with
    | none => .error "SyntaxError: invalid JSON"
    | some parsed => .ok parsed

/-- One entry of the recommendations array is acceptable when it is a
string that is non-empty after trimming. -/
def validRec (j : Json) : Bool :=
  match j with
  | .str s => !(jsTrim s == "")
  | _ => false

/-- The per-entry loop of `RecommenderEngine.validateResponse`. -/
def validateRecs : List Json → Except String Unit
  | [] => .ok ()
  | r :: rest =>
    if validRec r then validateRecs rest
    else .error "All recommendations must be non-empty strings"

/-- `RecommenderEngine.validateResponse` (lines 574-595). -/
def validateResponse (r : RecommendationResponse) : Except String Unit :=
  if r.occasion == "" || jsTrim r.occasion == "" then
    .error "Recommendation response must include an occasion"
  else if r.summary == "" || jsTrim r.summary == "" then
    .error "Recommendation response must include a summary"
  else if r.recommendations.isEmpty then
    .error "Recommendation response must include at least one outfit recommendation"
  else validateRecs r.recommendations

/-- Step 2 of the weather-aware flow (lines 128-146): consult the weather
service only when a location was extracted (`location !== "NONE" &&
location.length > 0`); a thrown lookup (`error`) is caught and yields no
weather data. -/
def weatherDecision (weatherLookup : Except Unit WeatherData) (location : String) :
    Option WeatherData :=
  if location ≠ "NONE" ∧ location.length > 0 then
    match weatherLookup with
    | .ok w => some w
    | .error _ => none
  else none

/-- The weather merge of the weather-aware flow (lines 162-168): attach the
snapshot and set the `weatherConsidered` flag. -/
def attachWeather (wd : Option WeatherData) (recs0 : RecommendationResponse) :
    RecommendationResponse :=
  match wd with
  | some w => { recs0 with weatherData := some w, weatherConsidered := some true }
  | none => { recs0 with weatherConsidered := some false }

/-- `RecommenderEngine.generateRecommendationsWithWeather` (lines 105-177).
The three collaborator calls are parameters: the location-extraction text
call, the weather lookup, and the final vision call; `error` models a
thrown exception in the collaborator. -/
def generateRecommendationsWithWeather
    (locationCall : Except Unit String)
    (weatherLookup : Except Unit WeatherData)
    (visionCall : Except Unit String) :
    Except String RecommendationResponse :=
  match locationCall with
  | .error _ => .error "Claude location call failed"
  | .ok locationResponse =>
    let location := jsTrim locationResponse
    let weatherData : Option WeatherData := weatherDecision weatherLookup location
    match visionCall with
    | .error _ => .error "Claude vision call failed"
    | .ok response =>
      match parseSingleCallResponse response with
      | .error e => .error e
      | .ok recs0 =>
        let recs := attachWeather weatherData recs0
        match validateResponse recs with
        | .error e => .error e
        | .ok _ => .ok recs


/-- A keyword group matches the text when one of its keywords occurs in it. -/
def groupMatches (text : String) (g : List String × String) : Prop :=
  ∃ k ∈ g.1, jsIncludes text k = true

/-- Concrete response used to witness the C8 theorem. -/
def c8SampleResponse : RecommendationResponse :=
  { occasion := "dinner", summary := "look sharp", recommendations := [Json.str "navy suit"] }



/-- Concrete vision-call response used to witness the C4 theorem. -/
def c4VisionResponse : String :=
  "\x7b\"occasion\":\"wedding\",\"summary\":\"s\",\"recommendations\":[\"wear suit\"]\x7d"

/-- The response the weather-aware flow produces on the witness inputs. -/
def c4Result : RecommendationResponse :=
  { occasion := "wedding", summary := "s", recommendations := [Json.str "wear suit"],
    weatherConsidered := some false }

/-! ## Helper lemmas -/

lemma dropWhile_eq_cons_head (p : Char → Bool) (cs : List Char) (c : Char) (rest : List Char)
    (h : cs.dropWhile p = c :: rest) : p c = false := by
  induction cs with
  | nil => simp [List.dropWhile] at h
  | cons d ds ih =>
    rw [List.dropWhile_cons] at h
    by_cases hp : p d
    · exact ih (by simpa [hp] using h)
    · rw [if_neg hp] at h
      cases h
      simpa using hp

lemma dropWhile_ne_spec (ch : Char) (cs : List Char) (h : ch ∈ cs) :
    ∃ l suf, cs = l ++ ch :: suf ∧ ch ∉ l ∧
      cs.dropWhile (fun c => !(c == ch)) = ch :: suf := by
  induction cs with
  | nil => cases h
  | cons c cs ih =>
    by_cases hc : c = ch
    · subst hc
      exact ⟨[], cs, rfl, by simp, by simp [List.dropWhile_cons]⟩
    · have h' : ch ∈ cs := by
        cases List.mem_cons.mp h with
        | inl he => exact absurd he.symm hc
        | inr hm => exact hm
      obtain ⟨l, suf, e1, e2, e3⟩ := ih h'
      refine ⟨c :: l, suf, by simp [e1], ?_, ?_⟩
      · intro hmem
        cases List.mem_cons.mp hmem with
        | inl he => exact hc he.symm
        | inr hm => exact e2 hm
      · rw [List.dropWhile_cons, if_pos (by simp [hc]), e3]

lemma dropWhile_ne_append (ch : Char) (l rest : List Char) (h : ch ∉ l) :
    (l ++ ch :: rest).dropWhile (fun c => !(c == ch)) = ch :: rest := by
  induction l with
  | nil => simp [List.dropWhile_cons]
  | cons c cs ih =>
    have hc : c ≠ ch := fun he => h (he ▸ List.mem_cons_self c cs)
    have h' : ch ∉ cs := fun hm => h (List.mem_cons_of_mem c hm)
    rw [List.cons_append, List.dropWhile_cons, if_pos (by simp [hc]), ih h']

lemma jsonSpan_eq_of_dropWhile (cs : List Char) (c : Char) (rest : List Char)
    (hd : cs.dropWhile (fun x => !(x == '\x7b')) = c :: rest) :
    jsonSpan cs =
      (if rest.contains '\x7d' then
        some (c :: (rest.reverse.dropWhile (fun x => !(x == '\x7d'))).reverse)
      else none) := by
  unfold jsonSpan
  rw [hd]

lemma jsonSpan_eq_none_of_dropWhile (cs : List Char)
    (hd : cs.dropWhile (fun x => !(x == '\x7b')) = []) :
    jsonSpan cs = none := by
  unfold jsonSpan
  rw [hd]

lemma jsonSpan_some_iff (cs span : List Char) :
    jsonSpan cs = some span ↔
      ∃ l m r, cs = l ++ '\x7b' :: (m ++ '\x7d' :: r) ∧ '\x7b' ∉ l ∧ '\x7d' ∉ r ∧
        span = '\x7b' :: (m ++ ['\x7d']) := by
  constructor
  · intro h
    cases hd : cs.dropWhile (fun x => !(x == '\x7b')) with
    | nil => rw [jsonSpan_eq_none_of_dropWhile cs hd] at h; cases h
    | cons c rest =>
      have hc : (!(c == '\x7b')) = false := dropWhile_eq_cons_head _ cs c rest hd
      have hceq : c = '\x7b' := by simpa using hc
      subst hceq
      rw [jsonSpan_eq_of_dropWhile cs _ rest hd] at h
      by_cases hcont : rest.contains '\x7d'
      · rw [if_pos hcont] at h
        have hmem : '\x7d' ∈ rest.reverse := by
          rw [List.mem_reverse]; simpa using hcont
        obtain ⟨p', s', e1, e2, e3⟩ := dropWhile_ne_spec '\x7d' rest.reverse hmem
        have hrest : rest = s'.reverse ++ '\x7d' :: p'.reverse := by
          have h2 := congrArg List.reverse e1
          simpa [List.reverse_append] using h2
        have hspan : span = '\x7b' :: (s'.reverse ++ ['\x7d']) := by
          have h3 := (Option.some.inj h).symm
          rw [e3] at h3
          simpa using h3
        refine ⟨cs.takeWhile (fun x => !(x == '\x7b')), s'.reverse, p'.reverse, ?_, ?_, ?_, hspan⟩
        · conv_lhs => rw [← List.takeWhile_append_dropWhile (fun x => !(x == '\x7b')) cs]
          rw [hd, hrest]
        · intro hmem2
          have h4 := List.mem_takeWhile_imp hmem2
          simp at h4
        · simpa using e2
      · rw [if_neg hcont] at h; cases h
  · rintro ⟨l, m, r, e, hl, hr, hspan⟩
    subst e
    have h1 := dropWhile_ne_append '\x7b' l (m ++ '\x7d' :: r) hl
    rw [jsonSpan_eq_of_dropWhile _ _ _ h1]
    have hcont : (m ++ '\x7d' :: r).contains '\x7d' = true := by simp
    rw [if_pos hcont]
    have hrev : (m ++ '\x7d' :: r).reverse = r.reverse ++ '\x7d' :: m.reverse := by
      simp [List.reverse_append]
    have hr' : '\x7d' ∉ r.reverse := by rw [List.mem_reverse]; exact hr
    rw [hrev, dropWhile_ne_append '\x7d' r.reverse m.reverse hr']
    simp [hspan]

lemma validRec_iff (j : Json) :
    validRec j = true ↔ ∃ s, j = Json.str s ∧ jsTrim s ≠ "" := by
  cases j <;> simp [validRec]

lemma validateRecs_ok_iff (l : List Json) :
    validateRecs l = .ok () ↔ ∀ j ∈ l, validRec j = true := by
  induction l with
  | nil => simp [validateRecs]
  | cons r rest ih =>
    by_cases hv : validRec r
    · simp [validateRecs, hv, ih]
    · simp [validateRecs, hv]

lemma jsTrim_empty : jsTrim "" = "" := rfl

lemma validateResponse_ok_iff (r : RecommendationResponse) :
    validateResponse r = .ok () ↔
      (jsTrim r.occasion ≠ "" ∧ jsTrim r.summary ≠ "" ∧ r.recommendations ≠ [] ∧
        ∀ j ∈ r.recommendations, validRec j = true) := by
  unfold validateResponse
  by_cases h1 : jsTrim r.occasion = ""
  · have : (r.occasion == "" || jsTrim r.occasion == "") = true := by
      simp [h1]
    simp [this, h1]
  · have hocc : r.occasion ≠ "" := by
      intro he; exact h1 (by rw [he]; rfl)
    have e1 : (r.occasion == "" || jsTrim r.occasion == "") = false := by
      simp [hocc, h1]
    rw [e1]
    by_cases h2 : jsTrim r.summary = ""
    · have : (r.summary == "" || jsTrim r.summary == "") = true := by simp [h2]
      simp [this, h1, h2]
    · have hsum : r.summary ≠ "" := by
        intro he; exact h2 (by rw [he]; rfl)
      have e2 : (r.summary == "" || jsTrim r.summary == "") = false := by
        simp [hsum, h2]
      rw [e2]
      by_cases h3 : r.recommendations = []
      · simp [h3, List.isEmpty, h1, h2]
      · have e3 : r.recommendations.isEmpty = false := by
          simp [List.isEmpty_iff, h3]
        simp [e3, h1, h2, h3, validateRecs_ok_iff]

lemma validateResponse_cases (r : RecommendationResponse) :
    validateResponse r = .ok () ∨ ∃ e, validateResponse r = .error e := by
  cases hv : validateResponse r with
  | ok u => cases u; exact Or.inl rfl
  | error e => exact Or.inr ⟨e, rfl⟩

lemma determineFormality_mem (occ : String) : determineFormality occ ∈ validFormalities := by
  unfold determineFormality
  cases hf : formalityPairs.find? (fun p => p.1 == occ) with
  | none => simp; decide
  | some p =>
    have hp := List.mem_of_find?_eq_some hf
    have hall : ∀ q ∈ formalityPairs, q.2 ∈ validFormalities := by decide
    simpa using hall p hp

lemma validateFormalityJ_mem (x : Option Json) : validateFormalityJ x ∈ validFormalities := by
  unfold validateFormalityJ
  cases x with
  | none => decide
  | some j =>
    cases j with
    | str s =>
      show (if validFormalities.contains s = true then s else "casual") ∈ validFormalities
      by_cases hc : validFormalities.contains s = true
      · rw [if_pos hc]; simpa using hc
      · rw [if_neg hc]; decide
    | null =>
      show "casual" ∈ validFormalities
      decide
    | bool b =>
      show "casual" ∈ validFormalities
      decide
    | num l =>
      show "casual" ∈ validFormalities
      decide
    | arr xs =>
      show "casual" ∈ validFormalities
      decide
    | obj fs =>
      show "casual" ∈ validFormalities
      decide

lemma parseOccasionWithAI_ok (input : String) (aiResponse : Except Unit String)
    (ctx : OccasionContext) (h : parseOccasionWithAI input aiResponse = .ok ctx) :
    ctx.formality ∈ validFormalities ∧ ctx.rawInput = input := by
  unfold parseOccasionWithAI at h
  split at h
  · cases h
  · split at h
    · cases h
    · split at h
      · cases h
      · cases h
        exact ⟨validateFormalityJ_mem _, rfl⟩

lemma parseOccasionKeywordBased_fields (input : String) :
    (parseOccasionKeywordBased input).formality ∈ validFormalities ∧
      (parseOccasionKeywordBased input).rawInput = input :=
  ⟨determineFormality_mem _, rfl⟩


lemma firstMatch_spec (groups : List (List String × String)) (text : String) :
    (firstMatch groups text = none ∧ ∀ g ∈ groups, ¬ groupMatches text g) ∨
    (∃ pre g suf, groups = pre ++ g :: suf ∧ groupMatches text g ∧
      (∀ g' ∈ pre, ¬ groupMatches text g') ∧ firstMatch groups text = some g.2) := by
  induction groups with
  | nil => exact Or.inl ⟨rfl, by simp⟩
  | cons g gs ih =>
    by_cases hg : g.1.any (fun k => jsIncludes text k) = true
    · refine Or.inr ⟨[], g, gs, by simp, ?_, by simp, ?_⟩
      · obtain ⟨k, hk, hkk⟩ := List.any_eq_true.mp hg
        exact ⟨k, hk, hkk⟩
      · obtain ⟨k1, k2⟩ := g
        simp only [firstMatch]
        rw [if_pos hg]
    · have hng : ¬ groupMatches text g := by
        intro ⟨k, hk, hkk⟩
        exact hg (List.any_eq_true.mpr ⟨k, hk, hkk⟩)
      have hfm : firstMatch (g :: gs) text = firstMatch gs text := by
        obtain ⟨k1, k2⟩ := g
        simp only [firstMatch]
        rw [if_neg hg]
      cases ih with
      | inl hi =>
        refine Or.inl ⟨by rw [hfm]; exact hi.1, ?_⟩
        intro g' hg'
        cases List.mem_cons.mp hg' with
        | inl he => exact he ▸ hng
        | inr hm => exact hi.2 g' hm
      | inr hi =>
        obtain ⟨pre, gm, suf, e1, e2, e3, e4⟩ := hi
        refine Or.inr ⟨g :: pre, gm, suf, by simp [e1], e2, ?_, by rw [hfm]; exact e4⟩
        intro g' hg'
        cases List.mem_cons.mp hg' with
        | inl he => exact he ▸ hng
        | inr hm => exact e3 g' hm

/-! ## The claims -/

/-- C1: for every input string (and every outcome of the optional AI call),
`ContextParser.parseOccasion` returns an `OccasionContext` whose `formality`
is one of the four enumerated values and whose `rawInput` is exactly the
input, on both the AI path and the keyword fallback path; totality of the
embedded function is the never-throws part of the claim. -/
theorem parseOccasion_formality_and_rawInput
    (useAI : Bool) (aiResponse : Except Unit String) (input : String) :
    (parseOccasion useAI aiResponse input).formality ∈ validFormalities ∧
      (parseOccasion useAI aiResponse input).rawInput = input := by
  unfold parseOccasion
  by_cases hu : useAI
  · rw [if_pos hu]
    cases hai : parseOccasionWithAI input aiResponse with
    | ok ctx => exact parseOccasionWithAI_ok input aiResponse ctx hai
    | error e => exact parseOccasionKeywordBased_fields input
  · rw [if_neg hu]
    exact parseOccasionKeywordBased_fields input

/-- C2: `validateResponse` throws exactly when the occasion is empty or
whitespace-only, or the summary is empty or whitespace-only, or the
recommendations array is empty, or some recommendations entry is not a
string that is non-empty after trimming; on every response avoiding all
four conditions it returns without throwing. -/
theorem validateResponse_error_iff (r : RecommendationResponse) :
    (∃ e, validateResponse r = .error e) ↔
      (jsTrim r.occasion = "" ∨ jsTrim r.summary = "" ∨ r.recommendations = [] ∨
        ∃ j ∈ r.recommendations, ¬∃ s, j = Json.str s ∧ jsTrim s ≠ "") := by
  have hok := validateResponse_ok_iff r
  constructor
  · rintro ⟨e, he⟩
    by_contra hcon
    push_neg at hcon
    obtain ⟨h1, h2, h3, h4⟩ := hcon
    have : validateResponse r = .ok () := hok.mpr ⟨h1, h2, h3, ?_⟩
    · rw [this] at he; cases he
    · intro j hj
      exact (validRec_iff j).mpr (h4 j hj)
  · intro hcond
    cases validateResponse_cases r with
    | inr he => exact he
    | inl hokk =>
      exfalso
      obtain ⟨h1, h2, h3, h4⟩ := hok.mp hokk
      cases hcond with
      | inl h => exact h1 h
      | inr hcond =>
        cases hcond with
        | inl h => exact h2 h
        | inr hcond =>
          cases hcond with
          | inl h => exact h3 h
          | inr h =>
            obtain ⟨j, hj, hns⟩ := h
            exact hns ((validRec_iff j).mp (h4 j hj))

/-- C8: for responses whose scalar fields are valid (occasion and summary
non-empty after trimming), `validateResponse` returns without throwing iff
the recommendations array has at least one entry and every entry is a
string that is non-empty after trimming. -/
theorem validateResponse_ok_iff_recommendations (r : RecommendationResponse)
    (hocc : jsTrim r.occasion ≠ "") (hsum : jsTrim r.summary ≠ "") :
    validateResponse r = .ok () ↔
      (1 ≤ r.recommendations.length ∧
        ∀ j ∈ r.recommendations, ∃ s, j = Json.str s ∧ jsTrim s ≠ "") := by
  rw [validateResponse_ok_iff]
  constructor
  · rintro ⟨_, _, h3, h4⟩
    refine ⟨?_, fun j hj => (validRec_iff j).mp (h4 j hj)⟩
    have := List.length_pos.mpr h3
    omega
  · rintro ⟨h1, h2⟩
    refine ⟨hocc, hsum, ?_, fun j hj => (validRec_iff j).mpr (h2 j hj)⟩
    intro he
    rw [he] at h1
    simp at h1

/-- C8 witness: a concrete valid response on which the theorem applies. -/
theorem validateResponse_ok_iff_recommendations_witness :
    jsTrim c8SampleResponse.occasion ≠ "" ∧
    jsTrim c8SampleResponse.summary ≠ "" ∧
    (validateResponse c8SampleResponse = .ok () ↔
      (1 ≤ c8SampleResponse.recommendations.length ∧
        ∀ j ∈ c8SampleResponse.recommendations, ∃ s, j = Json.str s ∧ jsTrim s ≠ "")) :=
  ⟨by decide, by decide,
    validateResponse_ok_iff_recommendations c8SampleResponse (by decide) (by decide)⟩

/-- C3: JSON extraction takes the greedy span from the first opening brace
to the last closing brace and parses that substring; on the noisy example
it yields the object with field `a` bound to the number 1, and on any text
containing no such brace span it fails with a parse error. -/
theorem extractJson_greedy_span :
    (∀ cs span : List Char, jsonSpan cs = some span ↔
      ∃ l m r, cs = l ++ '\x7b' :: (m ++ '\x7d' :: r) ∧ '\x7b' ∉ l ∧ '\x7d' ∉ r ∧
        span = '\x7b' :: (m ++ ['\x7d'])) ∧
    extractJson "noise \x7b\"a\":1\x7d trailing" = .ok (.obj [("a", .num "1")]) ∧
    (∀ s : String, (¬∃ l m r, s.data = l ++ '\x7b' :: (m ++ '\x7d' :: r)) →
      ∃ e, extractJson s = .error e) := by
  refine ⟨jsonSpan_some_iff, rfl, ?_⟩
  intro s hno
  cases hj : jsonSpan s.data with
  | some span =>
    obtain ⟨l, m, r, e1, _, _, _⟩ := (jsonSpan_some_iff s.data span).mp hj
    exact absurd ⟨l, m, r, e1⟩ hno
  | none =>
    refine ⟨"No JSON object found in response", ?_⟩
    unfold extractJson
    rw [hj]

/-- C3 witness: a concrete brace-free text on which extraction fails. -/
theorem extractJson_greedy_span_witness :
    (¬∃ l m r, ("hello there" : String).data = l ++ '\x7b' :: (m ++ '\x7d' :: r)) ∧
    ∃ e, extractJson "hello there" = .error e := by
  have hno : ¬∃ l m r, ("hello there" : String).data = l ++ '\x7b' :: (m ++ '\x7d' :: r) := by
    rintro ⟨l, m, r, h⟩
    have hmem : '\x7b' ∈ ("hello there" : String).data := by
      rw [h]; simp
    exact absurd hmem (by decide)
  exact ⟨hno, extractJson_greedy_span.2.2 "hello there" hno⟩

/-- C5: the keyword fallback tests the keyword groups in the fixed priority
order interview, wedding, workout, funeral, gala, formal event, business,
party, date, casual dining, beach, outdoor activity, casual, returns the
value of the first matching group and defaults to general; and the input
about a job interview resolves to interview, not general. -/
theorem extractOccasion_priority_order :
    occasionGroups.map (fun g => g.2) =
      ["interview", "wedding", "workout", "funeral", "gala", "formal event",
        "business", "party", "date", "casual dining", "beach", "outdoor activity", "casual"] ∧
    (∀ text : String,
      (extractOccasion text = "general" ∧ ∀ g ∈ occasionGroups, ¬ groupMatches text g) ∨
      (∃ pre g suf, occasionGroups = pre ++ g :: suf ∧ groupMatches text g ∧
        (∀ g' ∈ pre, ¬ groupMatches text g') ∧ extractOccasion text = g.2)) ∧
    (parseOccasionKeywordBased "job interview tomorrow").occasion = "interview" := by
  refine ⟨by decide, ?_, by decide⟩
  intro text
  cases firstMatch_spec occasionGroups text with
  | inl h =>
    refine Or.inl ⟨?_, h.2⟩
    unfold extractOccasion
    rw [h.1]
    rfl
  | inr h =>
    obtain ⟨pre, g, suf, e1, e2, e3, e4⟩ := h
    refine Or.inr ⟨pre, g, suf, e1, e2, e3, ?_⟩
    unfold extractOccasion
    rw [e4]
    rfl

/-- C6: on the wedding-in-Japan input, the keyword fallback produces
occasion wedding, location Japan, formality formal, and cultural notes
containing the word modest. -/
theorem keyword_wedding_in_japan :
    (parseOccasionKeywordBased "wedding in Japan").occasion = "wedding" ∧
    (parseOccasionKeywordBased "wedding in Japan").location = some "Japan" ∧
    (parseOccasionKeywordBased "wedding in Japan").formality = "formal" ∧
    ∃ notes, (parseOccasionKeywordBased "wedding in Japan").culturalNotes = some notes ∧
      jsIncludes notes "modest" = true :=
  ⟨by decide, by decide, by decide,
    "Consider modest dress codes; remove shoes indoors", by decide, by decide⟩

/-- C7: response assembly applies explicit defaults (occasion Unknown,
summary empty, recommendations empty when absent or not an array), and on
the model response containing only an occasion the assembled result has
empty recommendations and validation subsequently throws. -/
theorem parseSingleCall_defaults :
    (∀ parsed : Json, getField parsed "occasion" = none →
      (assembleRecommendation parsed).occasion = "Unknown") ∧
    (∀ parsed : Json, getField parsed "summary" = none →
      (assembleRecommendation parsed).summary = "") ∧
    (∀ parsed : Json, (∀ xs, getField parsed "recommendations" ≠ some (Json.arr xs)) →
      (assembleRecommendation parsed).recommendations = []) ∧
    (∃ r, parseSingleCallResponse "\x7b\"occasion\":\"business\"\x7d" = .ok r ∧
      r.occasion = "business" ∧ r.summary = "" ∧ r.recommendations = [] ∧
      ∃ e, validateResponse r = .error e) := by
  refine ⟨?_, ?_, ?_, ?_⟩
  · intro parsed h
    simp [assembleRecommendation, jsOrString, h, truthy]
  · intro parsed h
    simp [assembleRecommendation, jsOrString, h, truthy]
  · intro parsed h
    cases hx : getField parsed "recommendations" with
    | none => simp [assembleRecommendation, hx]
    | some j =>
      cases j with
      | arr xs => exact absurd hx (h xs)
      | null => simp [assembleRecommendation, hx]
      | bool b => simp [assembleRecommendation, hx]
      | num l => simp [assembleRecommendation, hx]
      | str s => simp [assembleRecommendation, hx]
      | obj fs => simp [assembleRecommendation, hx]
  · exact ⟨_, rfl, rfl, rfl, rfl, _, rfl⟩

/-- C7 witness: the defaults at the concrete argument `Json.null` (every
field access on it is absent). -/
theorem parseSingleCall_defaults_witness :
    getField Json.null "occasion" = none ∧
    (assembleRecommendation Json.null).occasion = "Unknown" ∧
    (assembleRecommendation Json.null).summary = "" ∧
    (assembleRecommendation Json.null).recommendations = [] :=
  ⟨rfl, parseSingleCall_defaults.1 Json.null rfl,
    parseSingleCall_defaults.2.1 Json.null rfl,
    parseSingleCall_defaults.2.2.1 Json.null (fun _xs h => Option.noConfusion h)⟩

lemma extractPreferences_subset (text : String) (p : String)
    (hp : p ∈ extractPreferences text) : p ∈ prefsList := by
  unfold extractPreferences at hp
  exact (List.mem_filter.mp (List.mem_filter.mp hp).1).1

/-- C9 counterexample: the input contains "prefer casual" adjacent to the
desire verb, yet "casual" is not included in the extracted preferences
(the preference vocabulary does not contain it). -/
theorem extractPreferences_prefer_casual_counterexample :
    jsIncludes (jsToLower "i prefer casual outfits") "prefer casual" = true ∧
    "casual" ∉ (parseOccasionKeywordBased "i prefer casual outfits").preferences := by
  constructor
  · decide
  · decide

/-- C9 amended: "casual" and "formal" never appear in the extracted
preferences for any input, desire verbs included, because the preference
vocabulary does not contain them; the desire-verb filter in the source can
therefore never fire. -/
theorem extractPreferences_never_casual_formal (input : String) :
    "casual" ∉ (parseOccasionKeywordBased input).preferences ∧
    "formal" ∉ (parseOccasionKeywordBased input).preferences := by
  constructor
  · intro h
    have hm := extractPreferences_subset (jsToLower input) "casual" h
    revert hm
    decide
  · intro h
    have hm := extractPreferences_subset (jsToLower input) "formal" h
    revert hm
    decide

lemma extractLocation_cases (text : String) :
    extractLocation text = none ∨
      ∃ loc ∈ locationsList, extractLocation text = some (titleCase loc) := by
  unfold extractLocation
  cases hf : locationsList.find? (fun loc => jsIncludes text loc) with
  | none => exact Or.inl rfl
  | some loc => exact Or.inr ⟨loc, List.mem_of_find?_eq_some hf, rfl⟩

lemma culturalLookup_reachable : ∀ loc ∈ locationsList,
    ((culturalPairs.find? (fun p => p.1 == titleCase loc)).map (fun p => p.2)) = none ∨
    ∃ key ∈ (["Japan", "Thailand", "India", "Dubai", "Singapore"] : List String),
      ((culturalPairs.find? (fun p => p.1 == titleCase loc)).map (fun p => p.2)) =
        (culturalPairs.find? (fun p => p.1 == key)).map (fun p => p.2) := by
  decide

lemma culturalLookup_not_unreachable : ∀ loc ∈ locationsList,
    ((culturalPairs.find? (fun p => p.1 == titleCase loc)).map (fun p => p.2)) ≠
      some "Very conservative dress codes; women should cover" ∧
    ((culturalPairs.find? (fun p => p.1 == titleCase loc)).map (fun p => p.2)) ≠
      some "Modest dress required; cover shoulders and knees" := by
  decide

/-- C10: the keyword fallback's cultural notes are always either the fixed
religious-site string, or the table entry for one of the five reachable
gazetteer locations (Japan, Thailand, India, Dubai, Singapore), or absent;
the table entries keyed Saudi Arabia and Vatican are unreachable since
those names are not produced by the gazetteer. -/
theorem culturalNotes_reachable (input : String) :
    ((parseOccasionKeywordBased input).culturalNotes = some religiousNote ∨
     (∃ key ∈ (["Japan", "Thailand", "India", "Dubai", "Singapore"] : List String),
        (parseOccasionKeywordBased input).culturalNotes =
          (culturalPairs.find? (fun p => p.1 == key)).map (fun p => p.2)) ∨
     (parseOccasionKeywordBased input).culturalNotes = none) ∧
    (parseOccasionKeywordBased input).culturalNotes ≠
      some "Very conservative dress codes; women should cover" ∧
    (parseOccasionKeywordBased input).culturalNotes ≠
      some "Modest dress required; cover shoulders and knees" ∧
    "Saudi Arabia" ∉ locationsList.map titleCase ∧
    "Vatican" ∉ locationsList.map titleCase := by
  have hfield : (parseOccasionKeywordBased input).culturalNotes =
      extractCulturalNotes (extractLocation (jsToLower input)) (jsToLower input) := rfl
  rw [hfield]
  unfold extractCulturalNotes
  by_cases hrel : (jsIncludes (jsToLower input) "temple" || jsIncludes (jsToLower input) "mosque"
      || jsIncludes (jsToLower input) "church") = true
  · rw [if_pos hrel]
    refine ⟨Or.inl rfl, by decide, by decide, by decide, by decide⟩
  · rw [if_neg hrel]
    cases extractLocation_cases (jsToLower input) with
    | inl hnone =>
      rw [hnone]
      exact ⟨Or.inr (Or.inr rfl), by simp, by simp, by decide, by decide⟩
    | inr hsome =>
      obtain ⟨loc, hmem, hloc⟩ := hsome
      rw [hloc]
      refine ⟨?_, ?_, ?_, by decide, by decide⟩
      · cases culturalLookup_reachable loc hmem with
        | inl h => exact Or.inr (Or.inr h)
        | inr h => exact Or.inr (Or.inl h)
      · exact (culturalLookup_not_unreachable loc hmem).1
      · exact (culturalLookup_not_unreachable loc hmem).2

lemma validateResponse_ok_ne_nil (x : RecommendationResponse)
    (h : validateResponse x = .ok ()) : x.recommendations ≠ [] :=
  ((validateResponse_ok_iff x).mp h).2.2.1

lemma parseSingleCallResponse_ok_weatherData (resp : String) (parsed : RecommendationResponse)
    (h : parseSingleCallResponse resp = .ok parsed) : parsed.weatherData = none := by
  unfold parseSingleCallResponse at h
  split at h
  · cases h
  · split at h
    · cases h
    · cases h
      rfl

lemma weatherDecision_error (loc : String) : weatherDecision (.error ()) loc = none := by
  unfold weatherDecision
  split
  · rfl
  · rfl

lemma weatherDecision_ok_pos (w : WeatherData) (loc : String)
    (h1 : loc ≠ "NONE") (h2 : loc.length > 0) : weatherDecision (.ok w) loc = some w := by
  unfold weatherDecision
  rw [if_pos ⟨h1, h2⟩]

lemma attachWeather_recommendations (wd : Option WeatherData) (x : RecommendationResponse) :
    (attachWeather wd x).recommendations = x.recommendations := by
  cases wd <;> rfl

/-- C4: in the weather-aware two-call flow, a throwing weather lookup is
non-blocking: the final response then has weatherConsidered false and no
weather data while recommendations still come from the parsed model JSON;
whenever weather data was obtained it is attached with weatherConsidered
true; and the flag is always set in this flow. -/
theorem weatherFlow_weather_nonblocking
    (locationCall : Except Unit String) (weatherLookup : Except Unit WeatherData)
    (visionCall : Except Unit String) (r : RecommendationResponse)
    (h : generateRecommendationsWithWeather locationCall weatherLookup visionCall = .ok r) :
    (weatherLookup = .error () → r.weatherConsidered = some false ∧ r.weatherData = none) ∧
    (∃ b, r.weatherConsidered = some b) ∧
    (∀ lr w, locationCall = .ok lr → jsTrim lr ≠ "NONE" → (jsTrim lr).length > 0 →
      weatherLookup = .ok w → r.weatherData = some w ∧ r.weatherConsidered = some true) ∧
    (∃ response parsed, visionCall = .ok response ∧
      parseSingleCallResponse response = .ok parsed ∧
      r.recommendations = parsed.recommendations ∧ r.recommendations ≠ []) := by
  cases locationCall with
  | error u => exact absurd h (by simp [generateRecommendationsWithWeather])
  | ok lr =>
    cases visionCall with
    | error u => exact absurd h (by simp [generateRecommendationsWithWeather])
    | ok resp =>
      cases hp : parseSingleCallResponse resp with
      | error e =>
        exact absurd h (by simp [generateRecommendationsWithWeather, hp])
      | ok parsed =>
        have hbody : generateRecommendationsWithWeather (.ok lr) weatherLookup (.ok resp) =
            (match validateResponse (attachWeather (weatherDecision weatherLookup (jsTrim lr)) parsed) with
              | .error e => .error e
              | .ok _ => .ok (attachWeather (weatherDecision weatherLookup (jsTrim lr)) parsed)) := by
          simp [generateRecommendationsWithWeather, hp]
        rw [hbody] at h
        cases hv : validateResponse (attachWeather (weatherDecision weatherLookup (jsTrim lr)) parsed) with
        | error e => rw [hv] at h; cases h
        | ok u2 =>
          cases u2
          rw [hv] at h
          cases h
          have hwdnone := parseSingleCallResponse_ok_weatherData resp parsed hp
          refine ⟨?_, ?_, ?_, ?_⟩
          · intro hw
            subst hw
            rw [weatherDecision_error]
            exact ⟨rfl, hwdnone⟩
          · cases weatherDecision weatherLookup (jsTrim lr) with
            | none => exact ⟨false, rfl⟩
            | some w => exact ⟨true, rfl⟩
          · intro lr' w hlr hne hlen hw
            cases hlr
            subst hw
            rw [weatherDecision_ok_pos w (jsTrim lr) hne hlen]
            exact ⟨rfl, rfl⟩
          · exact ⟨resp, parsed, rfl, hp, attachWeather_recommendations _ _,
              validateResponse_ok_ne_nil _ hv⟩

/-- C4 witness: a concrete run in which the weather lookup throws and the
flow still returns parsed recommendations with the flag set to false. -/
theorem weatherFlow_weather_nonblocking_witness :
    generateRecommendationsWithWeather (.ok "Tokyo") (.error ()) (.ok c4VisionResponse)
      = .ok c4Result ∧
    (c4Result.weatherConsidered = some false ∧ c4Result.weatherData = none) ∧
    c4Result.recommendations ≠ [] := by
  refine ⟨rfl, (weatherFlow_weather_nonblocking (.ok "Tokyo") (.error ())
    (.ok c4VisionResponse) c4Result rfl).1 rfl, by simp [c4Result]⟩
